import Mathlib

/-!
Shallow embedding of `src/extensions/microsoft-authentication/src/common/accountAccess.ts`.

The file models the two classes of that source file:

* `AccountAccessSecretStorage` (the "Access Ledger"): wraps the external
  `vscode.SecretStorage` backend, owns the current and legacy key names, and
  exposes `get` / `store` / `delete` of the allow-list with a legacy-key
  migration path.
* `ScopedAccountAccess` (the "Access Registry"): owns an in-memory cached
  allow-list, exposes `isAllowedAccess` / `setAllowedAccess`, and recomputes
  the cache in `update`, firing a change event only when the comparison in the
  source fires.

External collaborators (the `vscode.SecretStorage` backend and the JavaScript
builtins `JSON.parse` / `JSON.stringify`) are modelled explicitly below; the
two classes themselves are translated statement by statement from the source.
-/

namespace AccountAccess

/-- Model of the runtime JavaScript values that `JSON.parse` can produce, in
the fragment relevant to this program: `null`, booleans, integer numbers,
strings, and arrays.  (JSON objects and non-integer numbers never occur in the
values this program reads or writes and are outside the modelled fragment.) -/
inductive JsValue where
  | null : JsValue
  | bool (b : Bool) : JsValue
  | num (n : Int) : JsValue
  | str (s : String) : JsValue
  | arr (xs : List JsValue) : JsValue

mutual

/-- Decidable structural equality on `JsValue`.  On the scalar constructors and
on strings this coincides with JavaScript `===` / SameValueZero, which is the
equality used by `Array.prototype.includes`, `Array.prototype.filter`
comparisons and `Set` membership in the source. -/
def jsValueDecEq : (a b : JsValue) → Decidable (a = b)
  | .null, .null => isTrue rfl
  | .bool a, .bool b => if h : a = b then isTrue (by rw [h]) else isFalse (by simp [h])
  | .num a, .num b => if h : a = b then isTrue (by rw [h]) else isFalse (by simp [h])
  | .str a, .str b => if h : a = b then isTrue (by rw [h]) else isFalse (by simp [h])
  | .arr a, .arr b =>
    match jsValueListDecEq a b with
    | isTrue h => isTrue (by rw [h])
    | isFalse h => isFalse (by simp [h])
  | .null, .bool _ => isFalse (by simp)
  | .null, .num _ => isFalse (by simp)
  | .null, .str _ => isFalse (by simp)
  | .null, .arr _ => isFalse (by simp)
  | .bool _, .null => isFalse (by simp)
  | .bool _, .num _ => isFalse (by simp)
  | .bool _, .str _ => isFalse (by simp)
  | .bool _, .arr _ => isFalse (by simp)
  | .num _, .null => isFalse (by simp)
  | .num _, .bool _ => isFalse (by simp)
  | .num _, .str _ => isFalse (by simp)
  | .num _, .arr _ => isFalse (by simp)
  | .str _, .null => isFalse (by simp)
  | .str _, .bool _ => isFalse (by simp)
  | .str _, .num _ => isFalse (by simp)
  | .str _, .arr _ => isFalse (by simp)
  | .arr _, .null => isFalse (by simp)
  | .arr _, .bool _ => isFalse (by simp)
  | .arr _, .num _ => isFalse (by simp)
  | .arr _, .str _ => isFalse (by simp)

/-- Decidable equality on lists of `JsValue`, mutually with `jsValueDecEq`. -/
def jsValueListDecEq : (a b : List JsValue) → Decidable (a = b)
  | [], [] => isTrue rfl
  | x :: xs, y :: ys =>
    match jsValueDecEq x y, jsValueListDecEq xs ys with
    | isTrue h1, isTrue h2 => isTrue (by rw [h1, h2])
    | isFalse h1, _ => isFalse (by simp [h1])
    | _, isFalse h2 => isFalse (by simp [h2])
  | [], _ :: _ => isFalse (by simp)
  | _ :: _, [] => isFalse (by simp)

end

instance : DecidableEq JsValue := jsValueDecEq

instance {e a : Type} [DecidableEq e] [DecidableEq a] : DecidableEq (Except e a) := fun x y =>
  match x, y with
  | .ok v, .ok w => if h : v = w then isTrue (by rw [h]) else isFalse (by simp [h])
  | .error v, .error w => if h : v = w then isTrue (by rw [h]) else isFalse (by simp [h])
  | .ok _, .error _ => isFalse (by simp)
  | .error _, .ok _ => isFalse (by simp)

/-- Skip JSON whitespace, as `JSON.parse` does between tokens. -/
def skipWs : List Char → List Char
  | [] => []
  | c :: cs => if c = ' ' ∨ c = '\t' ∨ c = '\n' ∨ c = '\r' then skipWs cs else c :: cs

/-- Parse the body of a JSON string literal after the opening quote, handling
the escape sequences that can occur in serialized account identifiers. -/
def parseStringBody : List Char → List Char → Option (String × List Char)
  | [], _ => none
  | c :: rest, acc =>
    if c = '"' then some (String.mk acc.reverse, rest)
    else if c = '\\' then
      match rest with
      | '"' :: r2 => parseStringBody r2 ('"' :: acc)
      | '\\' :: r2 => parseStringBody r2 ('\\' :: acc)
      | '/' :: r2 => parseStringBody r2 ('/' :: acc)
      | 'n' :: r2 => parseStringBody r2 ('\n' :: acc)
      | 't' :: r2 => parseStringBody r2 ('\t' :: acc)
      | _ => none
    else parseStringBody rest (c :: acc)

/-- Numeric value of a list of decimal digit characters. -/
def digitsVal (ds : List Char) : Nat :=
  ds.foldl (fun n c => n * 10 + (c.toNat - 48)) 0

/-- Parse a run of decimal digits as a natural number. -/
def parseNum (cs : List Char) : Option (Nat × List Char) :=
  let ds := cs.takeWhile (fun c => c.isDigit)
  if ds.isEmpty then none else some (digitsVal ds, cs.drop ds.length)

/-- A frame of the recursive-descent JSON parser: either parse one value, or
parse the remaining items of an array whose prefix parsed to `acc`. -/
inductive ParseFrame where
  | val (cs : List Char) : ParseFrame
  | items (cs : List Char) (acc : List JsValue) : ParseFrame

/-- Fuel-indexed recursive-descent parser for the modelled JSON fragment. -/
def parseStep : Nat → ParseFrame → Option (JsValue × List Char)
  | 0, _ => none
  | fuel+1, .val cs =>
    match skipWs cs with
    | [] => none
    | c :: rest =>
      if c = '"' then
        match parseStringBody rest [] with
        | some (s, r) => some (.str s, r)
        | none => none
      else if c = '[' then
        match skipWs rest with
        | ']' :: r2 => some (.arr [], r2)
        | r2 => parseStep fuel (.items r2 [])
      else if c = 'n' then
        match rest with
        | 'u' :: 'l' :: 'l' :: r2 => some (.null, r2)
        | _ => none
      else if c = 't' then
        match rest with
        | 'r' :: 'u' :: 'e' :: r2 => some (.bool true, r2)
        | _ => none
      else if c = 'f' then
        match rest with
        | 'a' :: 'l' :: 's' :: 'e' :: r2 => some (.bool false, r2)
        | _ => none
      else if c = '-' then
        match parseNum rest with
        | some (n, r2) => some (.num (-(n : Int)), r2)
        | none => none
      else if c.isDigit then
        match parseNum (c :: rest) with
        | some (n, r2) => some (.num (n : Int), r2)
        | none => none
      else none
  | fuel+1, .items cs acc =>
    match parseStep fuel (.val cs) with
    | none => none
    | some (v, r) =>
      match skipWs r with
      | ']' :: r2 => some (.arr (acc ++ [v]), r2)
      | ',' :: r2 => parseStep fuel (.items r2 (acc ++ [v]))
      | _ => none

/-- Model of the JS builtin `JSON.parse` on the modelled fragment: succeeds
with a `JsValue` exactly when the whole input is one well-formed JSON value,
and throws (here: returns `Except.error`) otherwise — in particular on the
empty string and on any non-JSON text. -/
def jsonParse (s : String) : Except Unit JsValue :=
  match parseStep (2 * s.length + 2) (.val s.toList) with
  | some (v, rest) => if (skipWs rest).isEmpty then .ok v else .error ()
  | none => .error ()

/-- Escape one character for a JSON string literal. -/
def jsonEscapeChar (c : Char) : String :=
  if c = '"' then "\\\""
  else if c = '\\' then "\\\\"
  else String.singleton c

/-- Quote a string as a JSON string literal. -/
def jsonQuote (s : String) : String :=
  "\"" ++ String.join (s.toList.map jsonEscapeChar) ++ "\""

/-- Model of the JS builtin `JSON.stringify` on the modelled value fragment. -/
def jsonStringify : JsValue → String
  | .null => "null"
  | .bool true => "true"
  | .bool false => "false"
  | .num n => toString n
  | .str s => jsonQuote s
  | .arr xs => "[" ++ String.intercalate "," (go xs) ++ "]"
where
  go : List JsValue → List String
  | [] => []
  | v :: vs => jsonStringify v :: go vs

/-- Model of the external `vscode.SecretStorage` backend: the stored key/value
map, together with a fault model saying which `store(key, value)` calls fail
(reject).  Reads and deletes are modelled as always succeeding; the claims
under consideration only involve write failures. -/
structure SecretStorage where
  data : String → Option String
  storeFails : String → String → Bool

/-- `secretStorage.get(key)`: read the value stored under `key`. -/
def SecretStorage.get (ss : SecretStorage) (key : String) : Option String :=
  ss.data key

/-- The state change performed by a successful `secretStorage.store(key, value)`. -/
def SecretStorage.storePure (ss : SecretStorage) (key value : String) : SecretStorage :=
  { ss with data := fun k => if k = key then some value else ss.data k }

/-- `secretStorage.store(key, value)`: rejects when the fault model says this
call fails, otherwise updates the stored map. -/
def SecretStorage.store (ss : SecretStorage) (key value : String) : Except Unit SecretStorage :=
  if ss.storeFails key value then .error () else .ok (ss.storePure key value)

/-- The state change performed by `secretStorage.delete(key)`. -/
def SecretStorage.deletePure (ss : SecretStorage) (key : String) : SecretStorage :=
  { ss with data := fun k => if k = key then none else ss.data k }

/-- JavaScript truthiness of a `string | undefined` value, as used by the
source's `if (value)` / `if (legacyValue)` tests: `undefined` and the empty
string are falsy, every other string is truthy. -/
def truthy : Option String → Bool
  | none => false
  | some s => decide (s ≠ "")

/-- Model of `@azure/msal-node`'s `AccountInfo`, restricted to the single field
this program reads. -/
structure AccountInfo where
  homeAccountId : String

/-- The identity of one `AccountAccessSecretStorage` instance: the constructor
arguments `_cloudName`, `_clientId`, `_authority` that determine its two
backend key names. -/
structure AccountAccessSecretStorage where
  cloudName : String
  clientId : String
  authority : String

/-- The current key: `` `accounts-${this._cloudName}` ``. -/
def AccountAccessSecretStorage.key (a : AccountAccessSecretStorage) : String :=
  "accounts-" ++ a.cloudName

/-- The legacy key: `` `accounts-${this._cloudName}-${this._clientId}-${this._authority}` ``. -/
def AccountAccessSecretStorage.legacyKey (a : AccountAccessSecretStorage) : String :=
  "accounts-" ++ a.cloudName ++ "-" ++ a.clientId ++ "-" ++ a.authority

/-- How `AccountAccessSecretStorage.get` can reject: the `JSON.parse` call
throws on a malformed stored value, or the awaited forward-migration
`store` call rejects. -/
inductive GetError where
  | parseError : GetError
  | storeFailed : GetError
deriving DecidableEq

/-- `AccountAccessSecretStorage.get()`, translated statement by statement:

```
const value = await this._secretStorage.get(this._key);
if (value) { return JSON.parse(value); }
const legacyValue = await this._secretStorage.get(this._legacyKey);
if (legacyValue) {
  const parsedValue = JSON.parse(legacyValue);
  await this._secretStorage.store(this._key, legacyValue);
  return parsedValue;
}
return undefined;
```

The result carries the possibly-updated backend state; a thrown `JSON.parse`
or a rejected forward-migration `store` surfaces as `Except.error` (the
caller's promise rejects — there is no `try`/`catch` in the source). -/
def AccountAccessSecretStorage.get (a : AccountAccessSecretStorage) (ss : SecretStorage) :
    Except GetError (Option JsValue × SecretStorage) :=
  let value := ss.get a.key
  if truthy value then
    match jsonParse (value.getD "") with
    | .error _ => .error .parseError
    | .ok v => .ok (some v, ss)
  else
    let legacyValue := ss.get a.legacyKey
    if truthy legacyValue then
      match jsonParse (legacyValue.getD "") with
      | .error _ => .error .parseError
      | .ok parsedValue =>
        match ss.store a.key (legacyValue.getD "") with
        | .error _ => .error .storeFailed
        | .ok ss2 => .ok (some parsedValue, ss2)
    else
      .ok (none, ss)

/-- `AccountAccessSecretStorage.store(value)`: serializes once and dual-writes
the identical string to the current key and the legacy key
(`Promise.all` of the two backend stores: the operation succeeds only when
both writes succeed; on failure the partially-updated state is not observed by
the claims below, so the error carries no state). -/
def AccountAccessSecretStorage.store (a : AccountAccessSecretStorage) (ss : SecretStorage)
    (value : List JsValue) : Except Unit SecretStorage :=
  let stringified := jsonStringify (.arr value)
  if ss.storeFails a.key stringified || ss.storeFails a.legacyKey stringified then .error ()
  else .ok ((ss.storePure a.key stringified).storePure a.legacyKey stringified)

/-- `AccountAccessSecretStorage.delete()`: removes both the current key and the
legacy key from the backend. -/
def AccountAccessSecretStorage.delete (a : AccountAccessSecretStorage) (ss : SecretStorage) :
    SecretStorage :=
  (ss.deletePure a.key).deletePure a.legacyKey

/-- The state of one `ScopedAccountAccess` instance: its ledger identity and
the in-memory cached allow-list `value`.  At runtime the cache holds whatever
`JSON.parse` produced, hence elements of type `JsValue` rather than `String`. -/
structure ScopedAccountAccess where
  storage : AccountAccessSecretStorage
  value : List JsValue

/-- A freshly constructed registry: `private value = new Array<string>()`. -/
def ScopedAccountAccess.create (storage : AccountAccessSecretStorage) : ScopedAccountAccess :=
  { storage := storage, value := [] }

/-- `isAllowedAccess(account)`: `this.value.includes(account.homeAccountId)`. -/
def ScopedAccountAccess.isAllowedAccess (r : ScopedAccountAccess) (account : AccountInfo) : Bool :=
  decide (JsValue.str account.homeAccountId ∈ r.value)

/-- `setAllowedAccess(account, allowed)`.  The source mutates only the backend
(through the ledger); the in-memory cache `this.value` is not touched by this
method — it is refreshed separately by `update` via the change-event loop —
so the function returns only the new backend state:

```
if (allowed) {
  if (this.value.includes(account.homeAccountId)) { return; }
  await this._accountAccessSecretStorage.store([...this.value, account.homeAccountId]);
  return;
}
const newValue = this.value.filter(id => id !== account.homeAccountId);
if (newValue.length === this.value.length) { return; }
if (newValue.length) { await this._accountAccessSecretStorage.store(newValue); }
else { await this._accountAccessSecretStorage.delete(); }
```
-/
def ScopedAccountAccess.setAllowedAccess (r : ScopedAccountAccess) (ss : SecretStorage)
    (account : AccountInfo) (allowed : Bool) : Except Unit SecretStorage :=
  if allowed then
    if JsValue.str account.homeAccountId ∈ r.value then .ok ss
    else r.storage.store ss (r.value ++ [.str account.homeAccountId])
  else
    let newValue := r.value.filter (fun id => decide (id ≠ .str account.homeAccountId))
    if newValue.length = r.value.length then .ok ss
    else if newValue.length ≠ 0 then r.storage.store ss newValue
    else .ok (r.storage.delete ss)

/-- How `ScopedAccountAccess.update` can fail: the awaited ledger `get`
rejected, or the value it returned is not an array, in which case the source
would assign a non-array to the list-shaped cache (outside this embedding's
cache type; no claim exercises that state). -/
inductive UpdateError where
  | getError (e : GetError) : UpdateError
  | nonArrayValue : UpdateError
deriving DecidableEq

/-- The change test of `update`:
`current.size !== this.value.length || !this.value.every(id => current.has(id))`,
where `current` is the `Set` snapshot of the old cache (modelled by `dedup`:
only its size and membership are consulted) and `newValue` is the freshly
assigned cache. -/
def changeDetected (current newValue : List JsValue) : Bool :=
  decide (current.length ≠ newValue.length) || !(newValue.all (fun id => decide (id ∈ current)))

/-- `ScopedAccountAccess.update()` (the change reaction, also run by
`initialize()`):

```
const current = new Set(this.value);
const value = await this._accountAccessSecretStorage.get();
this.value = value ?? [];
if (current.size !== this.value.length || !this.value.every(id => current.has(id))) {
  this._onDidAccountAccessChangeEmitter.fire();
}
```

Returns the new registry state, the new backend state, and whether the
registry's own change event fired. -/
def ScopedAccountAccess.update (r : ScopedAccountAccess) (ss : SecretStorage) :
    Except UpdateError (ScopedAccountAccess × SecretStorage × Bool) :=
  let current := r.value.dedup
  match r.storage.get ss with
  | .error e => .error (.getError e)
  | .ok (none, ss2) =>
    .ok ({ r with value := [] }, ss2, changeDetected current [])
  | .ok (some (.arr xs), ss2) =>
    .ok ({ r with value := xs }, ss2, changeDetected current xs)
  | .ok (some _, _) => .error .nonArrayValue

/-- `true` exactly for the runtime values of TypeScript type `string[]`: the
"expected array-of-strings shape" of a deserialized allow-list. -/
def isStringArray : JsValue → Bool
  | .arr xs => xs.all (fun v => match v with | .str _ => true | _ => false)
  | _ => false

/-! Concrete instances used to witness the theorems below on closed inputs.
The identity scope `aC` has current key `"accounts-c"` and legacy key
`"accounts-c-cl-au"`. -/

/-- A concrete identity scope. -/
def aC : AccountAccessSecretStorage := { cloudName := "c", clientId := "cl", authority := "au" }

/-- Backend holding only the legacy key, every write succeeding. -/
def ssMig : SecretStorage :=
  { data := fun k => if k = "accounts-c-cl-au" then some "[\"X\"]" else none,
    storeFails := fun _ _ => false }

/-- Backend holding only the legacy key, every write failing. -/
def ssMigFail : SecretStorage :=
  { data := fun k => if k = "accounts-c-cl-au" then some "[\"X\"]" else none,
    storeFails := fun _ _ => true }

/-- Backend holding only the legacy key (a two-element list), every write failing. -/
def ssMigFailW : SecretStorage :=
  { data := fun k => if k = "accounts-c-cl-au" then some "[\"A\",\"B\"]" else none,
    storeFails := fun _ _ => true }

/-- Backend whose current key holds well-formed JSON of the wrong shape. -/
def ssNum : SecretStorage :=
  { data := fun k => if k = "accounts-c" then some "5" else none,
    storeFails := fun _ _ => false }

/-- Backend whose current key holds text that is not JSON at all. -/
def ssBad : SecretStorage :=
  { data := fun k => if k = "accounts-c" then some "x" else none,
    storeFails := fun _ _ => false }

/-- Backend storing the empty string under both keys. -/
def ssEmpty : SecretStorage :=
  { data := fun k =>
      if k = "accounts-c" then some "" else if k = "accounts-c-cl-au" then some "" else none,
    storeFails := fun _ _ => false }

/-- Backend whose current key holds the singleton allow-list `["A"]`. -/
def ssA : SecretStorage :=
  { data := fun k => if k = "accounts-c" then some "[\"A\"]" else none,
    storeFails := fun _ _ => false }

/-- Backend whose current key holds `["A","A"]`, a duplicate-carrying list. -/
def ssAA : SecretStorage :=
  { data := fun k => if k = "accounts-c" then some "[\"A\",\"A\"]" else none,
    storeFails := fun _ _ => false }

/-- Empty backend, every write succeeding. -/
def ssE : SecretStorage := { data := fun _ => none, storeFails := fun _ _ => false }

/-- Registry over `aC` whose cache is the singleton `["A"]`. -/
def rA : ScopedAccountAccess := { storage := aC, value := [.str "A"] }

/-- Registry over `aC` whose cache is empty. -/
def rE : ScopedAccountAccess := { storage := aC, value := [] }

/-- The backend reached from `ssE` by dual-writing the serialized `["A","B"]`. -/
def ssStored : SecretStorage :=
  (ssE.storePure aC.key "[\"A\",\"B\"]").storePure aC.legacyKey "[\"A\",\"B\"]"

/-- The backend reached from `ssMig` by the forward-migration write. -/
def ssMigStored : SecretStorage := ssMig.storePure aC.key "[\"X\"]"

/-- The backend reached from `ssE` by one `setAllowedAccess("A", true)`. -/
def ssW1 : SecretStorage :=
  (ssE.storePure aC.key "[\"A\"]").storePure aC.legacyKey "[\"A\"]"

/-- The backend reached from `ssW1` by a second `setAllowedAccess("A", true)`
issued against the still-unrefreshed empty cache. -/
def ssW2 : SecretStorage :=
  (ssW1.storePure aC.key "[\"A\"]").storePure aC.legacyKey "[\"A\"]"

/-! Helper lemmas shared by the claim theorems. -/

/-- The current key and the legacy key of one scope are always distinct
strings: the legacy key strictly extends the current key. -/
theorem key_ne_legacyKey (a : AccountAccessSecretStorage) : a.key ≠ a.legacyKey := by
  intro h
  have hl := congrArg String.length h
  have h9 : ("accounts-" : String).length = 9 := rfl
  have h1 : ("-" : String).length = 1 := rfl
  simp only [AccountAccessSecretStorage.key, AccountAccessSecretStorage.legacyKey,
    String.length_append, h9, h1] at hl
  omega

/-- Re-running the same dual raw write leaves the stored map unchanged:
overwriting two keys with the values they already hold is the identity on the
data map. -/
theorem storePure_idem_data (ss : SecretStorage) (k1 k2 v1 v2 : String) :
    ((((ss.storePure k1 v1).storePure k2 v2).storePure k1 v1).storePure k2 v2).data
      = ((ss.storePure k1 v1).storePure k2 v2).data := by
  funext k
  simp only [SecretStorage.storePure]
  by_cases h2 : k = k2
  · simp [h2]
  · by_cases h1 : k = k1 <;> simp [h1, h2]

/-- The change test, applied to the `Set` snapshot of an old cache and a
duplicate-free new cache, is quiet exactly when the two identifier sets are
equal. -/
theorem changeDetected_dedup_eq_false_iff (old new : List JsValue) (hnd : new.Nodup) :
    changeDetected old.dedup new = false ↔ old.toFinset = new.toFinset := by
  unfold changeDetected
  rw [Bool.or_eq_false_iff]
  simp only [decide_eq_false_iff_not, not_not, Bool.not_eq_false', List.all_eq_true,
    decide_eq_true_eq, List.mem_dedup]
  constructor
  · rintro ⟨h1, h2⟩
    have hsub : new.toFinset ⊆ old.toFinset := by
      intro x hx
      rw [List.mem_toFinset] at hx ⊢
      exact h2 x hx
    have hcard : old.toFinset.card ≤ new.toFinset.card := by
      rw [List.card_toFinset, List.toFinset_card_of_nodup hnd, h1]
    exact (Finset.eq_of_subset_of_card_le hsub hcard).symm
  · intro heq
    constructor
    · rw [← List.card_toFinset, heq, List.toFinset_card_of_nodup hnd]
    · intro x hx
      rw [← List.mem_toFinset, ← heq, List.mem_toFinset] at hx
      exact hx

/-! The claim theorems. -/

/-- C1 (counterexample): with the current key absent, the legacy key holding
`["X"]`, and the backend store call failing, `get()` propagates the failure
instead of returning the deserialized legacy value. -/
theorem get_migrationStoreFailure_cex :
    AccountAccessSecretStorage.get aC ssMigFail = .error .storeFailed := rfl

/-- C1 (amended): the forward-migration write in `get()` is awaited with no
`try`/`catch`, so when the current key is absent, the legacy key holds a
parseable value, and the backend store of that value into the current key
fails, `get()` rejects with that failure rather than returning the legacy
value. -/
theorem get_migrationStoreFailure_propagates (a : AccountAccessSecretStorage)
    (ss : SecretStorage) (s : String) (v : JsValue)
    (hcur : truthy (ss.get a.key) = false)
    (hleg : ss.get a.legacyKey = some s)
    (hs : s ≠ "")
    (hparse : jsonParse s = .ok v)
    (hfail : ss.storeFails a.key s = true) :
    a.get ss = .error .storeFailed := by
  unfold AccountAccessSecretStorage.get
  have ht : truthy (some s) = true := by simp [truthy, hs]
  simp only [hcur, Bool.false_eq_true, if_false, hleg, ht, if_true, Option.getD_some, hparse]
  simp [SecretStorage.store, hfail]

/-- C1 (witness): the amended statement at a concrete backend. -/
theorem get_migrationStoreFailure_witness :
    AccountAccessSecretStorage.get aC ssMigFailW = .error .storeFailed :=
  get_migrationStoreFailure_propagates aC ssMigFailW "[\"A\",\"B\"]"
    (.arr [.str "A", .str "B"]) rfl rfl (by decide) (by decide) rfl

/-- C2 (counterexample): with cache `["A"]` and the ledger read returning
`["A","A"]` — identical as a set of identifiers, but carrying a duplicate —
`update` fires the registry change event anyway, because the source compares
the old cache's `Set` size against the raw length of the fresh list. -/
theorem update_dupFresh_fires_cex :
    ScopedAccountAccess.update rA ssAA
        = .ok ({ rA with value := [.str "A", .str "A"] }, ssAA, true)
      ∧ ([JsValue.str "A"] : List JsValue).toFinset
          = ([JsValue.str "A", JsValue.str "A"] : List JsValue).toFinset :=
  ⟨rfl, by decide⟩

/-- C2 (amended): `update` fires its change event iff the number of distinct
cached identifiers differs from the raw length of the freshly read list, or
some fresh identifier is not in the cached set.  When the fresh list is
duplicate-free this is exactly set inequality of old and new identifier sets;
a fresh list that is set-equal to the cache but contains a duplicate still
fires. -/
theorem update_fires_iff_setsDiffer (r : ScopedAccountAccess) (ss ss' : SecretStorage)
    (r' : ScopedAccountAccess) (fired : Bool)
    (h : r.update ss = .ok (r', ss', fired))
    (hnd : r'.value.Nodup) :
    fired = false ↔ r.value.toFinset = r'.value.toFinset := by
  unfold ScopedAccountAccess.update at h
  cases hg : r.storage.get ss with
  | error e => rw [hg] at h; exact absurd h (by simp)
  | ok p =>
    obtain ⟨val, ss2⟩ := p
    rw [hg] at h
    cases val with
    | none =>
      simp only [Except.ok.injEq, Prod.mk.injEq] at h
      obtain ⟨hr, _, hf⟩ := h
      subst hr
      rw [← hf]
      exact changeDetected_dedup_eq_false_iff r.value [] hnd
    | some v =>
      cases v with
      | arr xs =>
        simp only [Except.ok.injEq, Prod.mk.injEq] at h
        obtain ⟨hr, _, hf⟩ := h
        subst hr
        rw [← hf]
        exact changeDetected_dedup_eq_false_iff r.value xs hnd
      | null => exact absurd h (by simp)
      | bool b => exact absurd h (by simp)
      | num n => exact absurd h (by simp)
      | str s => exact absurd h (by simp)

/-- C2 (witness): the amended statement at a concrete no-change refresh. -/
theorem update_fires_iff_setsDiffer_witness :
    (false = false
      ↔ ([JsValue.str "A"] : List JsValue).toFinset
          = ([JsValue.str "A"] : List JsValue).toFinset) :=
  update_fires_iff_setsDiffer rA ssA ssA rA false rfl (by decide)

/-- C3: after every successful `store(list)` on the ledger, the current key and
the legacy key both hold exactly the JSON encoding of `list` — byte-identical
serialized content. -/
theorem store_dualWrite_identical (a : AccountAccessSecretStorage) (ss ss' : SecretStorage)
    (value : List JsValue)
    (h : a.store ss value = .ok ss') :
    ss'.get a.key = some (jsonStringify (.arr value))
      ∧ ss'.get a.legacyKey = some (jsonStringify (.arr value)) := by
  unfold AccountAccessSecretStorage.store at h
  by_cases hf : (ss.storeFails a.key (jsonStringify (.arr value))
      || ss.storeFails a.legacyKey (jsonStringify (.arr value))) = true
  · simp only [hf, if_true] at h
    exact absurd h (by simp)
  · simp only [hf, if_false, Bool.false_eq_true] at h
    injection h with h
    subst h
    refine ⟨?_, ?_⟩
    · simp [SecretStorage.get, SecretStorage.storePure, key_ne_legacyKey a]
    · simp [SecretStorage.get, SecretStorage.storePure]

/-- C3 (witness): the dual-write invariant at a concrete successful store. -/
theorem store_dualWrite_identical_witness :
    ssStored.get aC.key = some (jsonStringify (.arr [.str "A", .str "B"]))
      ∧ ssStored.get aC.legacyKey = some (jsonStringify (.arr [.str "A", .str "B"])) :=
  store_dualWrite_identical aC ssE ssStored [.str "A", .str "B"] rfl

/-- C4: when a deny empties the resulting list (in particular when the denied
account is the only member of the cache), `setAllowedAccess(account, false)`
invokes the ledger's `delete()`, never `store([])`: the backend it returns is
exactly the dual-delete of the input backend, with both keys absent. -/
theorem setAllowedAccess_denyLast_deletes (r : ScopedAccountAccess) (ss : SecretStorage)
    (account : AccountInfo)
    (hmem : JsValue.str account.homeAccountId ∈ r.value)
    (hempty : r.value.filter (fun id => decide (id ≠ JsValue.str account.homeAccountId)) = []) :
    r.setAllowedAccess ss account false = .ok (r.storage.delete ss)
      ∧ (r.storage.delete ss).get r.storage.key = none
      ∧ (r.storage.delete ss).get r.storage.legacyKey = none := by
  have hpos : 0 < r.value.length := List.length_pos.mpr (List.ne_nil_of_mem hmem)
  refine ⟨?_, ?_, ?_⟩
  · unfold ScopedAccountAccess.setAllowedAccess
    simp only [Bool.false_eq_true, if_false, hempty, List.length_nil]
    rw [if_neg (by omega), if_neg (by omega)]
  · simp [AccountAccessSecretStorage.delete, SecretStorage.deletePure, SecretStorage.get]
  · simp [AccountAccessSecretStorage.delete, SecretStorage.deletePure, SecretStorage.get]

/-- C4 (witness): denying the only allowed account on a concrete backend. -/
theorem setAllowedAccess_denyLast_deletes_witness :
    rA.setAllowedAccess ssA { homeAccountId := "A" } false = .ok (rA.storage.delete ssA)
      ∧ (rA.storage.delete ssA).get rA.storage.key = none
      ∧ (rA.storage.delete ssA).get rA.storage.legacyKey = none :=
  setAllowedAccess_denyLast_deletes rA ssA { homeAccountId := "A" } (by decide) (by decide)

/-- C5: with the current key absent (not truthy) and the legacy key holding a
well-formed serialized list, `get()` returns the deserialized legacy value and
writes the same raw string forward into the current key, leaving the legacy
key — and every other key — untouched; and with both keys absent, `get()`
returns `undefined` with the backend unchanged. -/
theorem get_legacyMigration (a : AccountAccessSecretStorage) (ss : SecretStorage)
    (s : String) (v : JsValue) :
    (truthy (ss.get a.key) = false → ss.get a.legacyKey = some s → s ≠ "" →
        jsonParse s = .ok v → ss.storeFails a.key s = false →
        a.get ss = .ok (some v, ss.storePure a.key s)
          ∧ (ss.storePure a.key s).get a.key = some s
          ∧ (ss.storePure a.key s).get a.legacyKey = ss.get a.legacyKey
          ∧ ∀ k, k ≠ a.key → (ss.storePure a.key s).get k = ss.get k)
      ∧ (truthy (ss.get a.key) = false → truthy (ss.get a.legacyKey) = false →
          a.get ss = .ok (none, ss)) := by
  constructor
  · intro hcur hleg hs hparse hok
    have ht : truthy (some s) = true := by simp [truthy, hs]
    refine ⟨?_, ?_, ?_, ?_⟩
    · unfold AccountAccessSecretStorage.get
      simp only [hcur, Bool.false_eq_true, if_false, hleg, ht, if_true, Option.getD_some, hparse]
      simp [SecretStorage.store, hok]
    · simp [SecretStorage.get, SecretStorage.storePure]
    · simp [SecretStorage.get, SecretStorage.storePure, Ne.symm (key_ne_legacyKey a)]
    · intro k hk
      simp [SecretStorage.get, SecretStorage.storePure, hk]
  · intro hcur hleg
    unfold AccountAccessSecretStorage.get
    simp only [hcur, Bool.false_eq_true, if_false, hleg]

/-- C5 (witness): the legacy-migration read at a concrete backend holding only
`["X"]` under the legacy key. -/
theorem get_legacyMigration_witness :
    AccountAccessSecretStorage.get aC ssMig = .ok (some (.arr [.str "X"]), ssMigStored)
      ∧ ssMigStored.get aC.key = some "[\"X\"]"
      ∧ ssMigStored.get aC.legacyKey = ssMig.get aC.legacyKey :=
  have h := (get_legacyMigration aC ssMig "[\"X\"]" (.arr [.str "X"])).1
    (by decide) (by decide) (by decide) (by decide) rfl
  ⟨h.1, h.2.1, h.2.2.1⟩

/-- C6 (counterexample): the current key holds `"5"` — well-formed JSON that
is not of the array-of-strings shape — yet `get()` returns it without
signalling any error: the source runs `JSON.parse` with no shape
validation. -/
theorem get_wrongShape_noError_cex :
    AccountAccessSecretStorage.get aC ssNum = .ok (some (.num 5), ssNum)
      ∧ isStringArray (.num 5) = false :=
  ⟨rfl, rfl⟩

/-- C6 (amended): `get()` signals a corrupted-storage error exactly on stored
strings that fail to parse as JSON — from either the current key or the legacy
key — and such a failure is never converted into "absent" or an empty list; a
stored string that parses as JSON of the wrong shape, however, is returned
as-is without shape validation. -/
theorem get_parseFailure_signals (a : AccountAccessSecretStorage) (ss : SecretStorage) :
    (∀ s : String, ss.get a.key = some s → s ≠ "" → jsonParse s = .error () →
        a.get ss = .error .parseError)
      ∧ (∀ s : String, truthy (ss.get a.key) = false → ss.get a.legacyKey = some s → s ≠ "" →
          jsonParse s = .error () → a.get ss = .error .parseError) := by
  constructor
  · intro s hcur hs hparse
    have ht : truthy (some s) = true := by simp [truthy, hs]
    unfold AccountAccessSecretStorage.get
    simp only [hcur, ht, if_true, Option.getD_some, hparse]
  · intro s hcur hleg hs hparse
    have ht : truthy (some s) = true := by simp [truthy, hs]
    unfold AccountAccessSecretStorage.get
    simp only [hcur, Bool.false_eq_true, if_false, hleg, ht, if_true, Option.getD_some, hparse]

/-- C6 (witness): the amended statement at a concrete backend whose current
key holds non-JSON text. -/
theorem get_parseFailure_signals_witness :
    AccountAccessSecretStorage.get aC ssBad = .error .parseError :=
  (get_parseFailure_signals aC ssBad).1 "x" (by decide) (by decide) (by decide)

/-- C7: allowing the same account twice leaves the stored state equal to
allowing it once.  Without an intervening cache refresh the second call
re-writes the identical serialized list, so the backend map is unchanged; the
persisted list carries the new identifier exactly once; and with a refreshed
cache that already contains the identifier, a further allow is a complete
no-op. -/
theorem setAllowedAccess_allow_idempotent (r : ScopedAccountAccess) (ss ss1 ss2 : SecretStorage)
    (account : AccountInfo)
    (h1 : r.setAllowedAccess ss account true = .ok ss1)
    (h2 : r.setAllowedAccess ss1 account true = .ok ss2) :
    ss2.data = ss1.data
      ∧ (JsValue.str account.homeAccountId ∉ r.value →
          (r.value ++ [JsValue.str account.homeAccountId]).count
            (JsValue.str account.homeAccountId) = 1)
      ∧ ∀ (r2 : ScopedAccountAccess) (ssx : SecretStorage),
          JsValue.str account.homeAccountId ∈ r2.value →
          r2.setAllowedAccess ssx account true = .ok ssx := by
  refine ⟨?_, ?_, ?_⟩
  · by_cases hm : JsValue.str account.homeAccountId ∈ r.value
    · unfold ScopedAccountAccess.setAllowedAccess at h1 h2
      simp only [if_true, if_pos hm] at h1 h2
      injection h1 with h1
      injection h2 with h2
      rw [← h2]
    · unfold ScopedAccountAccess.setAllowedAccess AccountAccessSecretStorage.store at h1 h2
      simp only [if_true, if_neg hm] at h1 h2
      by_cases hf : (ss.storeFails r.storage.key
            (jsonStringify (.arr (r.value ++ [.str account.homeAccountId])))
          || ss.storeFails r.storage.legacyKey
            (jsonStringify (.arr (r.value ++ [.str account.homeAccountId])))) = true
      · rw [if_pos hf] at h1
        exact absurd h1 (by simp)
      · rw [if_neg hf] at h1
        injection h1 with h1
        subst h1
        simp only [SecretStorage.storePure] at h2
        rw [if_neg hf] at h2
        injection h2 with h2
        subst h2
        exact storePure_idem_data ss r.storage.key r.storage.legacyKey _ _
  · intro hnm
    simp [List.count_append, List.count_eq_zero.mpr hnm]
  · intro r2 ssx hmem
    unfold ScopedAccountAccess.setAllowedAccess
    simp [hmem]

/-- C7 (witness): two back-to-back allows of `"A"` from the empty cache on a
concrete backend produce the same stored map as one. -/
theorem setAllowedAccess_allow_idempotent_witness :
    ssW2.data = ssW1.data
      ∧ (([] : List JsValue) ++ [JsValue.str "A"]).count (JsValue.str "A") = 1 :=
  ⟨(setAllowedAccess_allow_idempotent rE ssE ssW1 ssW2 { homeAccountId := "A" } rfl rfl).1,
   (setAllowedAccess_allow_idempotent rE ssE ssW1 ssW2 { homeAccountId := "A" } rfl rfl).2.1
     (by decide)⟩

/-- C8: denying an account whose identifier is not in the cached list performs
no backend operation at all: `setAllowedAccess(account, false)` resolves with
the backend state returned exactly as it was received (this holds for every
fault model, so no store was even attempted), and the source never touches the
in-memory cache in this method. -/
theorem setAllowedAccess_denyAbsent_noop (r : ScopedAccountAccess) (ss : SecretStorage)
    (account : AccountInfo)
    (h : JsValue.str account.homeAccountId ∉ r.value) :
    r.setAllowedAccess ss account false = .ok ss := by
  unfold ScopedAccountAccess.setAllowedAccess
  have hfilter :
      r.value.filter (fun id => decide (id ≠ JsValue.str account.homeAccountId)) = r.value := by
    apply List.filter_eq_self.mpr
    intro x hx
    simp only [decide_eq_true_eq]
    intro hEq
    exact h (hEq ▸ hx)
  simp only [Bool.false_eq_true, if_false, hfilter]
  simp

/-- C8 (witness): denying `"B"` against the cache `["A"]` is a no-op on a
concrete backend. -/
theorem setAllowedAccess_denyAbsent_noop_witness :
    rA.setAllowedAccess ssA { homeAccountId := "B" } false = .ok ssA :=
  setAllowedAccess_denyAbsent_noop rA ssA { homeAccountId := "B" } (by decide)

/-- C9: before any `update` has run, the cache of a freshly constructed
registry is the empty list, so `isAllowedAccess` returns `false` for every
account — and, being a total function in this embedding of the total source
expression `this.value.includes(...)`, it never throws. -/
theorem isAllowedAccess_uninitialized_false (storage : AccountAccessSecretStorage)
    (account : AccountInfo) :
    (ScopedAccountAccess.create storage).isAllowedAccess account = false := by
  simp [ScopedAccountAccess.create, ScopedAccountAccess.isAllowedAccess]

/-- C10: an empty string stored under the current key is falsy, so `get()`
treats the key as absent and falls through to the legacy key without ever
calling `JSON.parse` on the empty string (which would throw: third conjunct);
an empty-string legacy value is likewise treated as absent, so `get()` returns
`undefined` when both keys hold empty strings. -/
theorem get_emptyString_treatedAbsent (a : AccountAccessSecretStorage) (ss : SecretStorage) :
    (ss.get a.key = some "" → ss.get a.legacyKey = some "" → a.get ss = .ok (none, ss))
      ∧ (∀ (s : String) (v : JsValue), ss.get a.key = some "" → ss.get a.legacyKey = some s →
          s ≠ "" → jsonParse s = .ok v → ss.storeFails a.key s = false →
          a.get ss = .ok (some v, ss.storePure a.key s))
      ∧ jsonParse "" = .error () := by
  refine ⟨?_, ?_, rfl⟩
  · intro hcur hleg
    have ht : truthy (ss.get a.key) = false := by rw [hcur]; rfl
    have ht2 : truthy (ss.get a.legacyKey) = false := by rw [hleg]; rfl
    unfold AccountAccessSecretStorage.get
    simp only [ht, Bool.false_eq_true, if_false, ht2]
  · intro s v hcur hleg hs hparse hok
    have ht : truthy (ss.get a.key) = false := by rw [hcur]; rfl
    have ht2 : truthy (some s) = true := by simp [truthy, hs]
    unfold AccountAccessSecretStorage.get
    simp only [ht, Bool.false_eq_true, if_false, hleg, ht2, if_true, Option.getD_some, hparse]
    simp [SecretStorage.store, hok]

/-- C10 (witness): a concrete backend holding the empty string under both keys
reads as absent, with no error and no backend change. -/
theorem get_emptyString_treatedAbsent_witness :
    AccountAccessSecretStorage.get aC ssEmpty = .ok (none, ssEmpty) :=
  (get_emptyString_treatedAbsent aC ssEmpty).1 (by decide) (by decide)

end AccountAccess
